import Mathlib

/-!
Verification of the MESSAGEix model-structure and constraint-generation
engine, as exercised by the Westeros tutorial scenario.  The engine itself
(set registry, parameter store, vintage resolver, constraint generator,
objective assembler) is consumed by the tutorial through the message_ix
API; the definitions below model those components from the specification,
instantiated with the concrete Westeros data where the tutorial fixes it.
-/

namespace MessageIx

/-- Time periods in history for the Westeros scenario. -/
def history : List Int := [690]

/-- Time periods in the model horizon for the Westeros scenario. -/
def model_horizon : List Int := [700, 710, 720]

/-- The first model year of the Westeros scenario. -/
def firstmodelyear : Int := 700

/-- All years of the Westeros scenario: history followed by the horizon. -/
def allYears : List Int := history ++ model_horizon

/-- Modelled from the spec: the Vintage Resolver (message_ix internals are
not shipped with the tutorial).  For a vintage year v, the derived active
years are the horizon years a with v ≤ a and a - v below the technical
lifetime; an undeclared lifetime (none) leaves the vintage valid through
the full horizon. -/
def activeYears (horizon : List Int) (lifetime : Option Int) (v : Int) : List Int :=
  horizon.filter fun a =>
    decide (v ≤ a) && (match lifetime with
      | some L => decide (a - v < L)
      | none => true)

/-- Modelled from the spec: the (vintage, active-year) cross-product used
to index vintage-keyed parameters, pairing every vintage year with every
horizon year at or after it. -/
def vintageActivePairs (years horizon : List Int) : List (Int × Int) :=
  years.flatMap fun v => (horizon.filter fun a => decide (v ≤ a)).map fun a => (v, a)

/-- Modelled from the spec: vintage_and_active_years returns the two
aligned columns (year_vtg, year_act) of the vintage/active cross-reference. -/
def vintage_and_active_years (years horizon : List Int) : List Int × List Int :=
  ((vintageActivePairs years horizon).map Prod.fst,
   (vintageActivePairs years horizon).map Prod.snd)

/-- Technical lifetimes declared in the Westeros tutorial (years). -/
def technical_lifetime (tec : String) : Option Int :=
  if tec = "coal_ppl" then some 20
  else if tec = "wind_ppl" then some 10
  else if tec = "bulb" then some 1
  else none

/-- The n-th model year, counting from the first model year in steps of the
period length. -/
def modelYear (first : Int) (step : ℕ) (n : ℕ) : Int := first + (n * step : ℕ)

/-- Modelled from the spec: the CAPACITY_MAINTENENCE right-hand-side
recurrence for one (node, technology, vintage), evaluated in increasing
active-year order.  At the first model year a pre-horizon vintage is
bounded by the period length times historical_new_capacity; in its
construction year a vintage is bounded by the period length times CAP_NEW;
in a later year still inside its technical lifetime it is bounded by the
previous active year's value. -/
def remaining_capacity (dt hnc capnew : ℚ) (L first : Int) (step : ℕ) (v : Int) :
    ℕ → ℚ
  | 0 =>
    if v < first then dt * hnc
    else if v = first then dt * capnew
    else 0
  | n + 1 =>
    if modelYear first step (n + 1) = v then dt * capnew
    else if v < modelYear first step (n + 1) ∧ modelYear first step (n + 1) - v < L then
      remaining_capacity dt hnc capnew L first step v n
    else 0

/-- Index of an activity decision variable: (technology, mode, vintage). -/
structure ActKey where
  tech : String
  mode : String
  vintage : Int
deriving DecidableEq, Repr

/-- Sense of a generated linear constraint. -/
inductive Rel
  | le
  | ge
  | eq
deriving DecidableEq, Repr

/-- A generated linear constraint: coefficient terms over activity
variables, a sense, and a right-hand side. -/
structure LinCon where
  terms : List (ℚ × ActKey)
  rel : Rel
  rhs : ℚ

/-- Value of a linear form under an assignment of the activity variables. -/
def evalLin (act : ActKey → ℚ) (ts : List (ℚ × ActKey)) : ℚ :=
  (ts.map fun t => t.1 * act t.2).sum

/-- A constraint is satisfied when its linear form stands in the stated
relation to its right-hand side. -/
def satisfiedBy (act : ActKey → ℚ) (c : LinCon) : Prop :=
  match c.rel with
  | Rel.le => evalLin act c.terms ≤ c.rhs
  | Rel.ge => c.rhs ≤ evalLin act c.terms
  | Rel.eq => evalLin act c.terms = c.rhs

/-- Modelled from the spec: the COMMODITY_BALANCE constraint generated for
one (node, commodity, level, year): output coefficients minus input
coefficients over the (technology, mode, vintage) triples alive at that
year, with sense greater-or-equal against demand. -/
def COMMODITY_BALANCE (alive : List ActKey) (output input : ActKey → ℚ)
    (demand : ℚ) : LinCon :=
  { terms := (alive.map fun k => (output k, k)) ++ (alive.map fun k => (-(input k), k)),
    rel := Rel.ge,
    rhs := demand }

/-- Modelled from the spec: the upper bound of the activity growth
constraint, combining the initial_activity_up allowance term with
compounding applied to the prior year's total activity plus the boundary
year's historical activity. -/
def growth_activity_bound (g iau prevAct histAct : ℚ) (dy : ℕ) : ℚ :=
  iau * (((1 + g) ^ dy - 1) / g) + (1 + g) ^ dy * (prevAct + histAct)

/-- Index of an activity growth constraint: (node, technology, year). -/
structure GrowthIdx where
  node : String
  tech : String
  year : Int
deriving DecidableEq, Repr

/-- A generated activity growth constraint: total cross-vintage activity
at the index is bounded above by the stated bound. -/
structure GrowthCon where
  idx : GrowthIdx
  bound : ℚ
deriving DecidableEq, Repr

/-- Modelled from the spec: the growth-bound constraint generator.  An
index whose growth_activity_up parameter is absent produces no constraint
at all; a declared parameter produces one constraint with the compounding
bound. -/
def genGrowthUp (idxs : List GrowthIdx) (gup : GrowthIdx → Option ℚ)
    (iau prevAct histAct : GrowthIdx → ℚ) (dy : ℕ) : List GrowthCon :=
  idxs.filterMap fun i =>
    (gup i).map fun g =>
      { idx := i, bound := growth_activity_bound g (iau i) (prevAct i) (histAct i) dy }

/-- Modelled from the spec: COST_NODAL, the cost subtotal of one
(node, year): investment cost, fixed O&M summed over vintages, variable
O&M summed over vintages and modes, plus whichever optional cost terms are
present. -/
def COST_NODAL (inv_cost ctf cap_new : ℚ)
    (vintages : List Int) (fix_cost CAP : Int → ℚ)
    (vm : List (Int × String)) (var_cost ACT : Int × String → ℚ)
    (optional : List (Option ℚ)) : ℚ :=
  inv_cost * ctf * cap_new
    + (vintages.map fun v => fix_cost v * CAP v).sum
    + (vm.map fun p => var_cost p * ACT p).sum
    + (optional.filterMap id).sum

/-- Modelled from the spec: the objective, summing each node-year cost
subtotal multiplied by its per-year discount factor. -/
def OBJ (nodeYears : List (String × Int)) (df : Int → ℚ)
    (cost : String → Int → ℚ) : ℚ :=
  (nodeYears.map fun ny => df ny.2 * cost ny.1 ny.2).sum

/-- The Set Registry: named ordered collections of members. -/
abbrev SetRegistry : Type := List (String × List String)

/-- Members of a named set (first matching entry; empty when undefined). -/
def members (reg : SetRegistry) (s : String) : List String :=
  match reg with
  | [] => []
  | (name, ms) :: rest => if name = s then ms else members rest s

/-- Modelled from the spec: add_set for a single member.  Appends the
member to the named ordered collection unless it is already present; a new
set is created when the name is not yet registered. -/
def add_set (reg : SetRegistry) (s m : String) : SetRegistry :=
  match reg with
  | [] => [(s, [m])]
  | (name, ms) :: rest =>
    if name = s then (name, if m ∈ ms then ms else ms ++ [m]) :: rest
    else (name, ms) :: add_set rest s m

/-- One stored parameter row: a full key tuple, a value and a unit. -/
structure ParRow where
  key : List String
  value : ℚ
  unit : String
deriving DecidableEq, Repr

/-- Error raised by the Parameter Store. -/
inductive StoreError
  | DimensionMismatchError
deriving DecidableEq, Repr

/-- Modelled from the spec: row validation against a parameter schema.
The key's arity must match the schema and every dimension value must be a
member of the declared set at its position. -/
def rowValid (reg : SetRegistry) (schema : List String) (key : List String) : Bool :=
  key.length == schema.length &&
    (schema.zip key).all fun p => decide (p.2 ∈ members reg p.1)

/-- Replace the value stored under a key, or append the row at the end
when the key is new. -/
def upsert (table : List ParRow) (r : ParRow) : List ParRow :=
  match table with
  | [] => [r]
  | q :: rest => if q.key = r.key then r :: rest else q :: upsert rest r

/-- Value stored under a key, when present. -/
def lookupVal (table : List ParRow) (key : List String) : Option ℚ :=
  match table with
  | [] => none
  | q :: rest => if q.key = key then some q.value else lookupVal rest key

/-- Modelled from the spec: add_par for a single row.  An invalid row
aborts the insertion with DimensionMismatchError and returns the table
unchanged; a valid row is upserted with last-write-wins semantics. -/
def add_par (reg : SetRegistry) (schema : List String) (table : List ParRow)
    (r : ParRow) : List ParRow × Option StoreError :=
  if rowValid reg schema r.key then (upsert table r, none)
  else (table, some StoreError.DimensionMismatchError)

/-- A historical parameter row of the Westeros tutorial: technology and
the history year it is keyed by. -/
structure HistRow where
  tech : String
  year : Int
deriving DecidableEq, Repr

/-- The historical_activity rows added by the tutorial (year_act = 690). -/
def historical_activity_rows : List HistRow :=
  [{ tech := "coal_ppl", year := 690 }, { tech := "wind_ppl", year := 690 }]

/-- The historical_new_capacity rows added by the tutorial
(year_vtg = 690). -/
def historical_new_capacity_rows : List HistRow :=
  [{ tech := "coal_ppl", year := 690 }, { tech := "wind_ppl", year := 690 }]

section Lemmas

/-- Membership in the vintage/active cross-product. -/
theorem mem_vintageActivePairs (years horizon : List Int) (p : Int × Int) :
    p ∈ vintageActivePairs years horizon ↔
      p.1 ∈ years ∧ p.2 ∈ horizon ∧ p.1 ≤ p.2 := by
  constructor
  · intro hp
    simp only [vintageActivePairs, List.mem_flatMap, List.mem_map,
      List.mem_filter] at hp
    obtain ⟨v, hv, a, ⟨ha, hva⟩, rfl⟩ := hp
    exact ⟨hv, ha, by simpa using hva⟩
  · rintro ⟨h1, h2, h3⟩
    simp only [vintageActivePairs, List.mem_flatMap, List.mem_map,
      List.mem_filter]
    exact ⟨p.1, h1, p.2, ⟨h2, by simpa using h3⟩, rfl⟩

/-- The two columns of vintage_and_active_years zip back to the pair list. -/
theorem zip_vintage_and_active_years (years horizon : List Int) :
    (vintage_and_active_years years horizon).1.zip
        (vintage_and_active_years years horizon).2 =
      vintageActivePairs years horizon := by
  simp [vintage_and_active_years, List.zip_map']

end Lemmas

section VintageResolver

/-- C4: the derived active-year set of a vintage v is exactly the horizon
years a with a at or after v whose age stays below the declared technical
lifetime, an undeclared lifetime imposing no bound within the horizon;
concretely, a coal plant built in 700 with lifetime 20 is active in 700
and 710 but not 720, and the undeclared vintage 690 stays active through
the whole horizon. -/
theorem vintage_resolver_active_years :
    (∀ (horizon : List Int) (lt : Option Int) (v a : Int),
      a ∈ activeYears horizon lt v ↔
        a ∈ horizon ∧ v ≤ a ∧ ∀ L, lt = some L → a - v < L) ∧
    activeYears model_horizon (technical_lifetime "coal_ppl") 700 = [700, 710] ∧
    activeYears model_horizon none 690 = [700, 710, 720] := by
  refine ⟨?_, by decide, by decide⟩
  intro horizon lt v a
  cases lt with
  | none => simp [activeYears, List.mem_filter]
  | some L => simp [activeYears, List.mem_filter, and_assoc]

/-- Witness for C4: the first model year is an active year of the
undeclared-lifetime vintage 690. -/
theorem vintage_resolver_active_years_witness :
    (700 : Int) ∈ activeYears model_horizon none 690 :=
  (vintage_resolver_active_years.1 model_horizon none 690 700).2
    ⟨by decide, by decide, fun _ h => Option.noConfusion h⟩

/-- C10: vintage_and_active_years returns two columns of equal length
whose aligned pairs all satisfy vintage ≤ active year with the active year
in the horizon, and the pairs are exactly the valid (vintage, active-year)
combinations. -/
theorem vintage_active_years_aligned (years horizon : List Int) :
    (vintage_and_active_years years horizon).1.length =
        (vintage_and_active_years years horizon).2.length ∧
    (∀ p ∈ (vintage_and_active_years years horizon).1.zip
        (vintage_and_active_years years horizon).2,
      p.1 ≤ p.2 ∧ p.2 ∈ horizon) ∧
    (∀ v a : Int,
      (v, a) ∈ (vintage_and_active_years years horizon).1.zip
          (vintage_and_active_years years horizon).2 ↔
        v ∈ years ∧ a ∈ horizon ∧ v ≤ a) := by
  refine ⟨by simp [vintage_and_active_years], ?_, ?_⟩
  · intro p hp
    rw [zip_vintage_and_active_years] at hp
    have h := (mem_vintageActivePairs years horizon p).1 hp
    exact ⟨h.2.2, h.2.1⟩
  · intro v a
    rw [zip_vintage_and_active_years]
    exact mem_vintageActivePairs years horizon (v, a)

/-- Witness for C10 at the Westeros data: the pair (690, 700) is a row of
the cross-reference, so its alignment properties hold there. -/
theorem vintage_active_years_aligned_witness :
    (690 : Int) ≤ 700 ∧ (700 : Int) ∈ model_horizon :=
  (vintage_active_years_aligned allYears model_horizon).2.1 (690, 700) (by decide)

/-- C9: no year outside the horizon is ever an active year of the derived
variable indexing; in the Westeros scenario the history year 690 never
appears among active years and occurs exactly as the key year of the
historical_activity and historical_new_capacity rows. -/
theorem history_years_not_active :
    (∀ (years horizon : List Int) (y : Int), y ∉ horizon →
      y ∉ (vintage_and_active_years years horizon).2) ∧
    (∀ y ∈ history, y ∉ (vintage_and_active_years allYears model_horizon).2) ∧
    (∀ r ∈ historical_activity_rows, r.year ∈ history) ∧
    (∀ r ∈ historical_new_capacity_rows, r.year ∈ history) := by
  refine ⟨?_, by decide, by decide, by decide⟩
  intro years horizon y hy hmem
  simp only [vintage_and_active_years, List.mem_map] at hmem
  obtain ⟨p, hp, rfl⟩ := hmem
  exact hy ((mem_vintageActivePairs years horizon p).1 hp).2.1

/-- Witness for C9: the history year 690 of the Westeros scenario is not
an active year of any decision variable. -/
theorem history_years_not_active_witness :
    (690 : Int) ∉ (vintage_and_active_years allYears model_horizon).2 :=
  history_years_not_active.1 allYears model_horizon 690 (by decide)

end VintageResolver

section CapacityMaintenance

/-- The recurrence bound at the first model year for a pre-horizon
vintage is the period length times historical_new_capacity. -/
theorem remaining_capacity_boundary (dt hnc capnew : ℚ) (L first : Int)
    (step : ℕ) (v : Int) (h : v < first) :
    remaining_capacity dt hnc capnew L first step v 0 = dt * hnc := by
  simp [remaining_capacity, h]

/-- Inside the lifetime window, the recurrence bound of a later year is
the bound of the previous active year. -/
theorem remaining_capacity_carry (dt hnc capnew : ℚ) (L first : Int)
    (step : ℕ) (v : Int) (n : ℕ)
    (h1 : v < modelYear first step (n + 1))
    (h2 : modelYear first step (n + 1) - v < L) :
    remaining_capacity dt hnc capnew L first step v (n + 1) =
      remaining_capacity dt hnc capnew L first step v n := by
  have hne : modelYear first step (n + 1) ≠ v := ne_of_gt h1
  simp [remaining_capacity, hne, h1, h2]

/-- With historical_new_capacity 10 at the boundary, no new capacity and
no retirement, the recurrence bound stays 10 at every active year. -/
theorem remaining_capacity_const (L first : Int) (step : ℕ) (v : Int)
    (hv : v < first) (n : ℕ)
    (hL : ∀ k ≤ n, modelYear first step k - v < L) :
    remaining_capacity 1 10 0 L first step v n = 10 := by
  induction n with
  | zero => rw [remaining_capacity_boundary _ _ _ _ _ _ _ hv]; norm_num
  | succ n ih =>
    have hfirst : first ≤ modelYear first step (n + 1) := by
      simp only [modelYear]
      omega
    have h1 : v < modelYear first step (n + 1) := lt_of_lt_of_le hv hfirst
    rw [remaining_capacity_carry _ _ _ _ _ _ _ _ h1 (hL (n + 1) le_rfl)]
    exact ih fun k hk => hL k (Nat.le_succ_of_le hk)

/-- C1: the capacity-maintenance bound equals the period length times
historical_new_capacity at the first model year for pre-horizon vintages,
the period length times CAP_NEW in the construction year, and the previous
active year's bound while the vintage is inside its lifetime; in the
concrete scenario with historical_new_capacity 10, CAP_NEW 0 and no
retirement, the bound is 10 at every active year. -/
theorem capacity_maintenance_recurrence (dt hnc capnew : ℚ) (L first : Int)
    (step : ℕ) (v : Int) :
    (v < first → remaining_capacity dt hnc capnew L first step v 0 = dt * hnc) ∧
    (∀ n, modelYear first step n = v →
      remaining_capacity dt hnc capnew L first step v n = dt * capnew) ∧
    (∀ n, v < modelYear first step (n + 1) →
      modelYear first step (n + 1) - v < L →
      remaining_capacity dt hnc capnew L first step v (n + 1) =
        remaining_capacity dt hnc capnew L first step v n) ∧
    (dt = 1 → hnc = 10 → capnew = 0 → v < first →
      ∀ n, (∀ k ≤ n, modelYear first step k - v < L) →
        remaining_capacity dt hnc capnew L first step v n = 10) := by
  refine ⟨remaining_capacity_boundary dt hnc capnew L first step v, ?_, ?_, ?_⟩
  · intro n h
    cases n with
    | zero =>
      have hv : v = first := by
        simp only [modelYear, Nat.zero_mul, Nat.cast_zero, add_zero] at h
        omega
      simp [remaining_capacity, hv]
    | succ n => simp [remaining_capacity, h]
  · exact remaining_capacity_carry dt hnc capnew L first step v
  · rintro rfl rfl rfl hv n hL
    exact remaining_capacity_const L first step v hv n hL

/-- Witness for C1: a vintage built in 690 with historical_new_capacity
10, period length divisor 1 and lifetime 200 keeps the bound 10 through
the third model year. -/
theorem capacity_maintenance_recurrence_witness :
    remaining_capacity 1 10 0 200 700 10 690 2 = 10 :=
  (capacity_maintenance_recurrence 1 10 0 200 700 10 690).2.2.2 rfl rfl rfl
    (by decide) 2 (by decide)

end CapacityMaintenance

section CommodityBalance

/-- Summing the negations of mapped values negates the sum. -/
theorem sum_map_neg {α : Type} (l : List α) (f : α → ℚ) :
    (l.map fun x => -(f x)).sum = -((l.map f).sum) := by
  induction l with
  | nil => simp
  | cons x xs ih => simp [ih]; ring

/-- The linear form of the generated commodity balance is the output sum
minus the input sum. -/
theorem evalLin_commodity_balance (alive : List ActKey)
    (output input : ActKey → ℚ) (demand : ℚ) (act : ActKey → ℚ) :
    evalLin act (COMMODITY_BALANCE alive output input demand).terms =
      (alive.map fun k => output k * act k).sum
        - (alive.map fun k => input k * act k).sum := by
  simp only [COMMODITY_BALANCE, evalLin, List.map_append, List.sum_append,
    List.map_map, Function.comp_def, neg_mul]
  rw [sub_eq_add_neg, ← sum_map_neg alive fun k => input k * act k]

/-- C2: the commodity balance generated for a (node, commodity, level,
year) is the inequality output-weighted activity minus input-weighted
activity at least demand over the alive (technology, mode, vintage)
triples; its sense is greater-or-equal, never equality, so any activity
assignment that strictly over-supplies still satisfies it. -/
theorem commodity_balance_form (alive : List ActKey)
    (output input : ActKey → ℚ) (demand : ℚ) :
    (COMMODITY_BALANCE alive output input demand).rel = Rel.ge ∧
    (COMMODITY_BALANCE alive output input demand).rel ≠ Rel.eq ∧
    (∀ act, satisfiedBy act (COMMODITY_BALANCE alive output input demand) ↔
      demand ≤ (alive.map fun k => output k * act k).sum
        - (alive.map fun k => input k * act k).sum) ∧
    (∀ act, demand < (alive.map fun k => output k * act k).sum
        - (alive.map fun k => input k * act k).sum →
      satisfiedBy act (COMMODITY_BALANCE alive output input demand)) := by
  have hiff : ∀ act,
      satisfiedBy act (COMMODITY_BALANCE alive output input demand) ↔
        demand ≤ (alive.map fun k => output k * act k).sum
          - (alive.map fun k => input k * act k).sum := by
    intro act
    rw [show satisfiedBy act (COMMODITY_BALANCE alive output input demand) =
      (demand ≤ evalLin act (COMMODITY_BALANCE alive output input demand).terms)
      from rfl]
    rw [evalLin_commodity_balance]
  refine ⟨rfl, by simp [COMMODITY_BALANCE], hiff, ?_⟩
  intro act h
  exact (hiff act).2 (le_of_lt h)

/-- Witness for C2: one coal plant with unit output, no input and demand
100 is over-supplied by activity 120, and the constraint accepts it. -/
theorem commodity_balance_form_witness :
    satisfiedBy (fun _ => 120)
      (COMMODITY_BALANCE [{ tech := "coal_ppl", mode := "standard", vintage := 700 }]
        (fun _ => 1) (fun _ => 0) 100) :=
  (commodity_balance_form _ _ _ 100).2.2.2 (fun _ => 120) (by norm_num)

end CommodityBalance

section GrowthBound

/-- C3: for a nonzero growth rate the allowance term of the growth bound
is exactly the geometric series of compounding factors, and in the
first-order case with growth rate 5 percent, no initial allowance and
prior activity A the bound equals A times 1.05. -/
theorem growth_activity_up_bound (g iau pa ha A : ℚ) (dy : ℕ) :
    (g ≠ 0 → growth_activity_bound g iau pa ha dy =
      iau * (∑ k ∈ Finset.range dy, (1 + g) ^ k) + (1 + g) ^ dy * (pa + ha)) ∧
    growth_activity_bound (5 / 100) 0 A 0 1 = A * (105 / 100) := by
  constructor
  · intro hg
    have hmul : (∑ k ∈ Finset.range dy, (1 + g) ^ k) * g = (1 + g) ^ dy - 1 := by
      have h := geom_sum_mul (1 + g) dy
      calc (∑ k ∈ Finset.range dy, (1 + g) ^ k) * g
          = (∑ k ∈ Finset.range dy, (1 + g) ^ k) * (1 + g - 1) := by ring_nf
        _ = (1 + g) ^ dy - 1 := h
    rw [growth_activity_bound, ← hmul, mul_div_cancel_right₀ _ hg]
  · rw [growth_activity_bound]
    norm_num
    ring

/-- Witness for C3 at growth rate one twentieth over two periods: the
bound equals the geometric-series form. -/
theorem growth_activity_up_bound_witness :
    growth_activity_bound (1 / 20) 2 3 4 2 =
      2 * (∑ k ∈ Finset.range 2, (1 + 1 / 20 : ℚ) ^ k) +
        (1 + 1 / 20 : ℚ) ^ 2 * (3 + 4) :=
  (growth_activity_up_bound (1 / 20) 2 3 4 0 2).1 (by norm_num)

end GrowthBound

section ObjectiveAssembler

/-- C5: the objective is the sum over node-year pairs of the discount
factor times the node-year cost subtotal, decomposing one node-year at a
time; the subtotal is investment plus fixed O&M over vintages plus
variable O&M over vintage-mode pairs plus the present optional terms, and
when every optional parameter is absent only the three standard terms
remain. -/
theorem objective_assembler (nodeYears : List (String × Int)) (df : Int → ℚ)
    (cost : String → Int → ℚ) (inv ctf cn : ℚ) (vints : List Int)
    (fc CAP : Int → ℚ) (vm : List (Int × String)) (vc ACT : Int × String → ℚ)
    (opts : List (Option ℚ)) :
    OBJ nodeYears df cost =
      (nodeYears.map fun ny => df ny.2 * cost ny.1 ny.2).sum ∧
    (∀ ny rest, OBJ (ny :: rest) df cost =
      df ny.2 * cost ny.1 ny.2 + OBJ rest df cost) ∧
    COST_NODAL inv ctf cn vints fc CAP vm vc ACT opts =
      inv * ctf * cn + (vints.map fun v => fc v * CAP v).sum
        + (vm.map fun p => vc p * ACT p).sum + (opts.filterMap id).sum ∧
    ((∀ o ∈ opts, o = none) →
      COST_NODAL inv ctf cn vints fc CAP vm vc ACT opts =
        inv * ctf * cn + (vints.map fun v => fc v * CAP v).sum
          + (vm.map fun p => vc p * ACT p).sum) := by
  refine ⟨rfl, fun ny rest => by simp [OBJ], rfl, ?_⟩
  intro habs
  have hnil : opts.filterMap id = [] := by
    rw [List.filterMap_eq_nil_iff]
    intro o ho
    exact habs o ho
  rw [COST_NODAL, hnil]
  simp

/-- Witness for C5: with both optional cost parameters absent the subtotal
of one vintage and one vintage-mode pair is the three standard terms. -/
theorem objective_assembler_witness :
    COST_NODAL 1500 1 2 [700] (fun _ => 40) (fun _ => 3)
        [(700, "standard")] (fun _ => 5) (fun _ => 7) [none, none] =
      1500 * 1 * 2 + ([(700 : Int)].map fun _ => (40 : ℚ) * 3).sum
        + ([((700 : Int), "standard")].map fun _ => (5 : ℚ) * 7).sum :=
  (objective_assembler [] (fun _ => 0) (fun _ _ => 0) 1500 1 2 [700]
    (fun _ => 40) (fun _ => 3) [(700, "standard")] (fun _ => 5) (fun _ => 7)
    [none, none]).2.2.2 (by simp)

end ObjectiveAssembler

section ConstraintSkipping

/-- C6: a generated growth constraint exists exactly for the indices whose
growth_activity_up parameter is declared; an index with an absent
parameter contributes no constraint at all, and a declared parameter
contributes the compounding bound. -/
theorem growth_constraint_skips_absent (idxs : List GrowthIdx)
    (gup : GrowthIdx → Option ℚ) (iau pa ha : GrowthIdx → ℚ) (dy : ℕ) :
    (∀ c, c ∈ genGrowthUp idxs gup iau pa ha dy ↔
      ∃ i ∈ idxs, ∃ g, gup i = some g ∧
        c = { idx := i,
              bound := growth_activity_bound g (iau i) (pa i) (ha i) dy }) ∧
    (∀ i, gup i = none → ∀ c ∈ genGrowthUp idxs gup iau pa ha dy, c.idx ≠ i) ∧
    (∀ i ∈ idxs, ∀ g, gup i = some g →
      ({ idx := i,
         bound := growth_activity_bound g (iau i) (pa i) (ha i) dy } : GrowthCon)
        ∈ genGrowthUp idxs gup iau pa ha dy) := by
  have hmem : ∀ c, c ∈ genGrowthUp idxs gup iau pa ha dy ↔
      ∃ i ∈ idxs, ∃ g, gup i = some g ∧
        c = { idx := i,
              bound := growth_activity_bound g (iau i) (pa i) (ha i) dy } := by
    intro c
    simp only [genGrowthUp, List.mem_filterMap, Option.map_eq_some']
    constructor
    · rintro ⟨i, hi, g, hg, rfl⟩
      exact ⟨i, hi, g, hg, rfl⟩
    · rintro ⟨i, hi, g, hg, rfl⟩
      exact ⟨i, hi, g, hg, rfl⟩
  refine ⟨hmem, ?_, ?_⟩
  · intro i hnone c hc hidx
    obtain ⟨j, _, g, hg, rfl⟩ := (hmem c).1 hc
    have hj : j = i := hidx
    rw [hj, hnone] at hg
    exact Option.noConfusion hg
  · intro i hi g hg
    exact (hmem _).2 ⟨i, hi, g, hg, rfl⟩

/-- Witness for C6: with growth declared for the coal plant but absent for
the bulb, the generated family contains a constraint for the coal plant
and nothing indexed by the bulb. -/
theorem growth_constraint_skips_absent_witness :
    ({ idx := { node := "Westeros", tech := "coal_ppl", year := 700 },
       bound := growth_activity_bound (5 / 100) 0 20 0 1 } : GrowthCon).idx ≠
      { node := "Westeros", tech := "bulb", year := 700 } := by
  have h := growth_constraint_skips_absent
    [{ node := "Westeros", tech := "coal_ppl", year := 700 },
     { node := "Westeros", tech := "bulb", year := 700 }]
    (fun i => if i.tech = "bulb" then none else some (5 / 100))
    (fun _ => 0) (fun _ => 20) (fun _ => 0) 1
  exact h.2.1 { node := "Westeros", tech := "bulb", year := 700 } rfl _
    (h.2.2 { node := "Westeros", tech := "coal_ppl", year := 700 }
      (by decide) (5 / 100) rfl)

end ConstraintSkipping

section ParameterStore

/-- After an upsert the stored value under the row's own key is the new
value. -/
theorem lookupVal_upsert_self (t : List ParRow) (r : ParRow) :
    lookupVal (upsert t r) r.key = some r.value := by
  induction t with
  | nil => simp [upsert, lookupVal]
  | cons q rest ih =>
    by_cases h : q.key = r.key
    · simp [upsert, lookupVal, h]
    · simp only [upsert, lookupVal, if_neg h]
      exact ih

/-- An upsert leaves the value stored under every other key unchanged. -/
theorem lookupVal_upsert_other (t : List ParRow) (r : ParRow)
    (k : List String) (h : k ≠ r.key) :
    lookupVal (upsert t r) k = lookupVal t k := by
  induction t with
  | nil =>
    simp only [upsert, lookupVal]
    rw [if_neg fun hk => h hk.symm]
  | cons q rest ih =>
    by_cases hq : q.key = r.key
    · simp only [upsert, if_pos hq, lookupVal]
      rw [if_neg fun hk => h hk.symm, if_neg fun hk => h (hq ▸ hk).symm]
    · simp only [upsert, if_neg hq, lookupVal]
      by_cases hk : q.key = k
      · rw [if_pos hk, if_pos hk]
      · rw [if_neg hk, if_neg hk]
        exact ih

/-- C7: add_par rejects a row whose key fails schema validation (wrong
arity or a dimension value outside its declared set) with
DimensionMismatchError, leaving the table untouched; a valid row is
inserted without error, overwriting any value at the exact same key while
every other key's value stays unchanged. -/
theorem add_par_validation (reg : SetRegistry) (schema : List String)
    (table : List ParRow) (r : ParRow) :
    (rowValid reg schema r.key = true ↔
      r.key.length = schema.length ∧
        ∀ p ∈ schema.zip r.key, p.2 ∈ members reg p.1) ∧
    (rowValid reg schema r.key = false →
      add_par reg schema table r = (table, some StoreError.DimensionMismatchError)) ∧
    (rowValid reg schema r.key = true →
      (add_par reg schema table r).2 = none ∧
      lookupVal (add_par reg schema table r).1 r.key = some r.value ∧
      ∀ k, k ≠ r.key →
        lookupVal (add_par reg schema table r).1 k = lookupVal table k) := by
  refine ⟨?_, ?_, ?_⟩
  · simp [rowValid, List.all_eq_true]
  · intro h
    simp [add_par, h]
  · intro h
    refine ⟨by simp [add_par, h], ?_, ?_⟩
    · simp only [add_par, h, if_true]
      exact lookupVal_upsert_self table r
    · intro k hk
      simp only [add_par, h, if_true]
      exact lookupVal_upsert_other table r k hk

/-- Witness for C7: against the Westeros registry, a row with too few
dimension values is rejected with DimensionMismatchError and an empty
table stays empty. -/
theorem add_par_validation_witness :
    add_par [("node", ["Westeros"]), ("technology", ["coal_ppl", "wind_ppl"])]
        ["node", "technology"] []
        { key := ["Westeros"], value := 5, unit := "GWa" } =
      ([], some StoreError.DimensionMismatchError) :=
  (add_par_validation [("node", ["Westeros"]), ("technology", ["coal_ppl", "wind_ppl"])]
      ["node", "technology"] []
      { key := ["Westeros"], value := 5, unit := "GWa" }).2.1 (by decide)

end ParameterStore

section SetRegistryIdempotence

/-- Adding a member to a set it already belongs to changes nothing. -/
theorem add_set_of_mem (reg : SetRegistry) (s m : String)
    (h : m ∈ members reg s) :
    add_set reg s m = reg := by
  induction reg with
  | nil => simp [members] at h
  | cons p rest ih =>
    obtain ⟨name, ms⟩ := p
    by_cases hn : name = s
    · simp only [members, if_pos hn] at h
      simp [add_set, hn, h]
    · simp only [members, if_neg hn] at h
      simp [add_set, hn, ih h]

/-- The members of the target set after add_set: unchanged when the
member is already present, otherwise extended by it at the end. -/
theorem members_add_set (reg : SetRegistry) (s m : String) :
    members (add_set reg s m) s =
      if m ∈ members reg s then members reg s else members reg s ++ [m] := by
  induction reg with
  | nil => simp [add_set, members]
  | cons p rest ih =>
    obtain ⟨name, ms⟩ := p
    by_cases hn : name = s
    · simp [add_set, members, hn]
    · simp [add_set, members, hn, ih]

/-- The member just added belongs to the target set. -/
theorem mem_members_add_set (reg : SetRegistry) (s m : String) :
    m ∈ members (add_set reg s m) s := by
  rw [members_add_set]
  by_cases h : m ∈ members reg s
  · rwa [if_pos h]
  · rw [if_neg h]
    simp

/-- The members of any named set are duplicate-free when every registered
set is. -/
theorem members_nodup (reg : SetRegistry) (s : String)
    (h : ∀ p ∈ reg, p.2.Nodup) :
    (members reg s).Nodup := by
  induction reg with
  | nil => simp [members]
  | cons p rest ih =>
    obtain ⟨name, ms⟩ := p
    by_cases hn : name = s
    · simpa [members, hn] using h (name, ms) (List.mem_cons_self _ _)
    · simp only [members, if_neg hn]
      exact ih fun q hq => h q (List.mem_cons_of_mem _ hq)

/-- C8: add_set is idempotent: re-adding an existing member returns the
registry unchanged, a second identical add_set is absorbed by the first,
and when the registered sets are duplicate-free the added member occurs
exactly once afterwards. -/
theorem add_set_idempotent (reg : SetRegistry) (s m : String) :
    (m ∈ members reg s → add_set reg s m = reg) ∧
    add_set (add_set reg s m) s m = add_set reg s m ∧
    ((∀ p ∈ reg, p.2.Nodup) → (members (add_set reg s m) s).count m = 1) := by
  refine ⟨add_set_of_mem reg s m, ?_, ?_⟩
  · exact add_set_of_mem (add_set reg s m) s m (mem_members_add_set reg s m)
  · intro hnd
    rw [members_add_set]
    by_cases h : m ∈ members reg s
    · rw [if_pos h]
      exact List.count_eq_one_of_mem (members_nodup reg s hnd) h
    · rw [if_neg h]
      rw [List.count_append, List.count_eq_zero_of_not_mem h]
      simp

/-- Witness for C8: re-adding the commodity light to the Westeros
commodity set leaves the registry unchanged. -/
theorem add_set_idempotent_witness :
    add_set [("commodity", ["electricity", "light"])] "commodity" "light" =
      [("commodity", ["electricity", "light"])] :=
  (add_set_idempotent [("commodity", ["electricity", "light"])]
      "commodity" "light").1 (by decide)

end SetRegistryIdempotence

end MessageIx
